import Mathlib

/-!
# Verification of the logista template preprocessing and rendering pipeline

Shallow embedding of the Go sources under `internal/formatter`
(`formatter.go`, `preprocessor.go`, `colors.go`) of the logista JSON-log
formatter, together with theorems settling the specification claims about
the preprocessor, the color-tag resolver, the value-formatting library and
the per-record stream pipeline.

Go strings are modelled as `List Char` (one `Char` per byte; all inputs of
interest are ASCII, so byte-level slicing coincides with character-level
slicing), wrapped into Lean `String`s at the interface level via
`String.data`.
-/

namespace Logista

/-! ## Basic Go string-library helpers (strings.HasPrefix, strings.Contains,
strings.ReplaceAll, strings.Fields, strings.Repeat, strings.ToLower) -/

/-- `strings.HasPrefix`: does `s` start with `pre`. -/
def hasPrefixL : (pre s : List Char) → Bool
  | [], _ => true
  | _ :: _, [] => false
  | p :: ps, c :: cs => p == c && hasPrefixL ps cs

/-- `strings.Contains(s, sub)`: some suffix of `s` starts with `sub`. -/
def containsL (sub : List Char) : List Char → Bool
  | [] => hasPrefixL sub []
  | c :: cs => hasPrefixL sub (c :: cs) || containsL sub cs

/-- `strings.Contains` on `String`. -/
def goContains (s sub : String) : Bool := containsL sub.data s.data

/-- One step of `strings.ReplaceAll s old new` for a nonempty `old`:
if `old` is a prefix, emit `new` and continue after it (non-overlapping,
left to right), otherwise copy one character.  `fuel` bounds the recursion
by the length of `s`, which strictly decreases at every step. -/
def replaceAllAux (old new : List Char) : Nat → List Char → List Char
  | 0, s => s
  | _ + 1, [] => []
  | fuel + 1, c :: cs =>
    if hasPrefixL old (c :: cs) then
      new ++ replaceAllAux old new fuel ((c :: cs).drop old.length)
    else
      c :: replaceAllAux old new fuel cs

/-- `strings.ReplaceAll(s, old, new)`.  The Go function with an empty `old`
inserts `new` between characters; the code only calls it with `old = "{{"`,
so that case is irrelevant and we return `s` unchanged there. -/
def goReplaceAll (s old new : String) : String :=
  if old.data.isEmpty then s
  else ⟨replaceAllAux old.data new.data s.data.length s.data⟩

/-- `strings.Repeat(" ", n)` specialised to spaces (`n` is a `Nat`;
Go panics on negative counts, which never occur in the modelled paths). -/
def spaces (n : Nat) : String := ⟨List.replicate n ' '⟩

/-! ## encoding/json numeric decoding (claim C1)

The current `ProcessStream` decodes each line with plain `json.Unmarshal`
into `map[string]interface{}`, whose default numeric representation is
IEEE-754 `float64`.  For a nonnegative integer JSON numeral `n` (the case of
interest: large integer IDs), the decoded `float64` is `n` rounded to 53
significant bits, round-to-nearest ties-to-even.  We model that rounding
exactly on `Nat` (valid for all numerals below `2^64`, far above the
counterexample inputs); no floating-point type is involved. -/

/-- Number of binary digits of `n` (for `n < 2^64`); structural fuel keeps
the definition kernel-reducible. -/
def bitLenAux : Nat → Nat → Nat
  | 0, _ => 0
  | fuel + 1, n => if n = 0 then 0 else bitLenAux fuel (n / 2) + 1

/-- Binary length of a `Nat` below `2^64`. -/
def bitLen (n : Nat) : Nat := bitLenAux 64 n

/-- The `float64` value produced by `json.Unmarshal` for the integer JSON
numeral `n` (returned as the exact integer the float denotes): `n` itself
when it fits in 53 bits, otherwise `n` rounded to 53 significant bits with
round-to-nearest, ties-to-even. -/
def float64OfNat (n : Nat) : Nat :=
  if n < 2 ^ 53 then n
  else
    let e := bitLen n - 53
    let q := n / 2 ^ e
    let r := n % 2 ^ e
    let half := 2 ^ (e - 1)
    let q1 := if half < r ∨ (r = half ∧ q % 2 = 1) then q + 1 else q
    q1 * 2 ^ e

/-! ## Template preprocessor (`preprocessor.go`) -/

/-- Options for template pre-processing (`PreProcessTemplateOptions`); the
current `preprocessor.go` has the single field `EnableSimpleSyntax`. -/
structure PreProcessTemplateOptions where
  enableSimple : Bool

/-- `DefaultPreProcessTemplateOptions`. -/
def defaultPreProcessTemplateOptions : PreProcessTemplateOptions :=
  { enableSimple := true }

/-- The inner loop of `transformSimpleSyntax`: starting just after an
opening `{` with `openBraces` open braces, scan for the matching `}`
(`{` increments, `}` decrements the counter).  Returns the enclosed text and
the remainder after the closing brace, or `none` when no closing brace is
found. -/
def findCloseBrace : Nat → List Char → Option (List Char × List Char)
  | _, [] => none
  | openBraces, c :: cs =>
    if c = '{' then
      (findCloseBrace (openBraces + 1) cs).map fun p => (c :: p.1, p.2)
    else if c = '}' then
      if openBraces = 1 then some ([], cs)
      else (findCloseBrace (openBraces - 1) cs).map fun p => (c :: p.1, p.2)
    else
      (findCloseBrace openBraces cs).map fun p => (c :: p.1, p.2)

/-- The character-by-character loop of `transformSimpleSyntax`: a `{` not
immediately followed by another `{` opens a simple field reference, whose
text is rewritten to `{{.text}}`; an unmatched `{` copies the rest verbatim;
all other characters are copied as-is.  `fuel` bounds the recursion by the
input length (every step consumes at least one character). -/
def transformSimpleLoop : Nat → List Char → List Char
  | 0, s => s
  | _ + 1, [] => []
  | fuel + 1, c :: cs =>
    if c = '{' && !(hasPrefixL ['{'] cs) then
      match findCloseBrace 1 cs with
      | some (inner, rest) =>
        '{' :: '{' :: '.' :: inner ++ '}' :: '}' :: transformSimpleLoop fuel rest
      | none => c :: cs
    else
      c :: transformSimpleLoop fuel cs

/-- `transformSimpleSyntax` (the simple-`{field}`-to-`{{.field}}` rewrite):
skipped entirely when disabled; returns the template unchanged when it is
already native Go template syntax (contains `{{` and, after deleting all
`{{` occurrences, no `{` remains); otherwise runs the brace-scanning loop. -/
def transformSimple (options : PreProcessTemplateOptions) (template : String) :
    String :=
  if !options.enableSimple then template
  else if goContains template "\x7b\x7b" &&
      !(goContains (goReplaceAll template "\x7b\x7b" "") "\x7b") then template
  else ⟨transformSimpleLoop template.data.length template.data⟩

/-- `PreProcessTemplate`: empty templates short-circuit, everything else
goes through `transformSimpleSyntax`. -/
def PreProcessTemplate (template : String)
    (options : PreProcessTemplateOptions) : String :=
  if template = "" then template
  else transformSimple options template

/-! ## Color tag resolver (`colors.go`)

Both `ApplyColors` and `stripColorTags` are driven by the regular
expression `<([^>]+)>([^<]*)(</[^>]*>|</>)` (the `</>` alternative is
subsumed by `</[^>]*>`).  At a given start position this pattern matches
deterministically: the tag name is the maximal nonempty run of non-`>`
characters after `<` (shorter runs cannot be followed by `>`), the content
is the maximal run of non-`<` characters, and the closing tag is `</`, a
maximal run of non-`>` characters, and `>`.  Go's regexp uses leftmost-first
search, so the first match is found by trying each start position from the
left; `matchAt`/`firstMatch` below implement exactly that. -/

/-- Split a list at the first character failing `p` (the
takeWhile/dropWhile pair used by the deterministic regex scan). -/
def spanL (p : Char → Bool) : List Char → List Char × List Char
  | [] => ([], [])
  | c :: cs =>
    if p c then
      let r := spanL p cs
      (c :: r.1, r.2)
    else ([], c :: cs)

/-- Number of `'<'` characters; every resolver iteration removes at least
two of them (the opening tag's and the closing tag's), which bounds the
loops below. -/
def countLt : List Char → Nat
  | [] => 0
  | c :: cs => (if c = '<' then 1 else 0) + countLt cs

/-- Attempt to match `<([^>]+)>([^<]*)(</[^>]*>|</>)` at the start of the
input; returns (tag name, content, remainder after the closing tag). -/
def matchAt : List Char → Option (List Char × List Char × List Char)
  | '<' :: t =>
    let p1 := spanL (· != '>') t
    if p1.1.isEmpty then none
    else
      match p1.2 with
      | '>' :: t2 =>
        let p2 := spanL (· != '<') t2
        match p2.2 with
        | '<' :: '/' :: t4 =>
          let p3 := spanL (· != '>') t4
          match p3.2 with
          | '>' :: t6 => some (p1.1, p2.1, t6)
          | _ => none
        | _ => none
      | _ => none
  | _ => none

/-- Leftmost match of the color-tag pattern: returns
(prefix before the match, tag name, content, remainder), or `none`. -/
def firstMatch : List Char → Option (List Char × List Char × List Char × List Char)
  | [] => none
  | ch :: t =>
    match matchAt (ch :: t) with
    | some (n, c, r) => some ([], n, c, r)
    | none => (firstMatch t).map fun q => (ch :: q.1, q.2.1, q.2.2.1, q.2.2.2)

/-- The `colorCodes` table: style name → ANSI SGR code. -/
def colorCode : String → Option String
  | "black" => some "30"
  | "red" => some "31"
  | "green" => some "32"
  | "yellow" => some "33"
  | "blue" => some "34"
  | "magenta" => some "35"
  | "cyan" => some "36"
  | "white" => some "37"
  | "gray" => some "90"
  | "brightred" => some "91"
  | "brightgreen" => some "92"
  | "brightyellow" => some "93"
  | "brightblue" => some "94"
  | "brightmagenta" => some "95"
  | "brightcyan" => some "96"
  | "brightwhite" => some "97"
  | "bg-black" => some "40"
  | "bg-red" => some "41"
  | "bg-green" => some "42"
  | "bg-yellow" => some "43"
  | "bg-blue" => some "44"
  | "bg-magenta" => some "45"
  | "bg-cyan" => some "46"
  | "bg-white" => some "47"
  | "bg-gray" => some "100"
  | "bg-brightred" => some "101"
  | "bg-brightgreen" => some "102"
  | "bg-brightyellow" => some "103"
  | "bg-brightblue" => some "104"
  | "bg-brightmagenta" => some "105"
  | "bg-brightcyan" => some "106"
  | "bg-brightwhite" => some "107"
  | "bold" => some "1"
  | "italic" => some "3"
  | "underline" => some "4"
  | "dim" => some "2"
  | _ => none

/-- The ANSI reset sequence (`ansiReset`). -/
def ansiReset : String := "\x1b[0m"

/-- ASCII whitespace as recognised by `strings.Fields`. -/
def isSpaceC (c : Char) : Bool :=
  c = ' ' || c = '\t' || c = '\n' || c = '\r' || c = '\x0b' || c = '\x0c'

/-- Accumulator loop of `strings.Fields`. -/
def fieldsAux (cur : List Char) : List Char → List (List Char)
  | [] => if cur.isEmpty then [] else [cur.reverse]
  | c :: cs =>
    if isSpaceC c then
      if cur.isEmpty then fieldsAux [] cs else cur.reverse :: fieldsAux [] cs
    else fieldsAux (c :: cur) cs

/-- `strings.Fields`: split on whitespace runs. -/
def goFields (s : List Char) : List (List Char) := fieldsAux [] s

/-- `strings.ToLower` (ASCII suffices for style names). -/
def goToLower (s : List Char) : List Char := s.map Char.toLower

/-- `strings.Join(codes, ";")`. -/
def joinSemi : List String → List Char
  | [] => []
  | [x] => x.data
  | x :: xs => x.data ++ ';' :: joinSemi xs

/-- `applyColorCode`: look up each whitespace-separated style of the tag
name (lower-cased) in the code table; with no valid codes the content is
returned unchanged, otherwise it is wrapped in the combined SGR sequence
and the reset sequence. -/
def applyColorCode (tagName content : List Char) : List Char :=
  let styles := goFields tagName
  let codes := styles.filterMap fun st => colorCode ⟨goToLower st⟩
  if codes.isEmpty then content
  else "\x1b[".data ++ joinSemi codes ++ 'm' :: content ++ ansiReset.data

/-- The iterative replacement loop of `ApplyColors`: repeatedly find the
first match and replace it by its color-coded content.  `fuel` bounds the
loop; since every iteration removes at least two `'<'` characters and the
replacement inserts none, `countLt s + 1` iterations always reach the
no-match exit that the unbounded Go loop uses. -/
def applyColorsLoop : Nat → List Char → List Char
  | 0, s => s
  | fuel + 1, s =>
    match firstMatch s with
    | none => s
    | some (p, n, c, r) => applyColorsLoop fuel (p ++ applyColorCode n c ++ r)

/-- One `regexp.ReplaceAllString(s, "$1")` pass: replace every
non-overlapping leftmost match by its content capture, continuing the scan
after each match (Go matches against the original input of the pass).
`fuel` bounds the recursion by the input length. -/
def replaceAllPass : Nat → List Char → List Char
  | 0, s => s
  | fuel + 1, s =>
    match firstMatch s with
    | none => s
    | some (p, _, c, r) => p ++ c ++ replaceAllPass fuel r

/-- The fixpoint loop of `stripColorTags`: run `ReplaceAllString` passes
until a pass makes no change.  As for `applyColorsLoop`, `countLt s + 1`
passes always suffice. -/
def stripLoop : Nat → List Char → List Char
  | 0, s => s
  | fuel + 1, s =>
    let s1 := replaceAllPass s.length s
    if s1 = s then s else stripLoop fuel s1

/-- `stripColorTags`. -/
def stripColorTags (input : String) : String :=
  ⟨stripLoop (countLt input.data + 1) input.data⟩

/-- `ApplyColors(input, noColors)`. -/
def ApplyColors (input : String) (noColors : Bool) : String :=
  if noColors then stripColorTags input
  else ⟨applyColorsLoop (countLt input.data + 1) input.data⟩

/-- Formalisation helper for the spec's "content-wise" comparison: delete
every ANSI SGR escape sequence `ESC [ [0-9;]* m`, keeping all other text. -/
def stripAnsiAux : Nat → List Char → List Char
  | 0, s => s
  | _ + 1, [] => []
  | fuel + 1, c :: cs =>
    if c = '\x1b' then
      match cs with
      | '[' :: t =>
        let p := spanL (fun ch => ch.isDigit || ch = ';') t
        match p.2 with
        | 'm' :: t2 => stripAnsiAux fuel t2
        | _ => c :: stripAnsiAux fuel cs
      | _ => c :: stripAnsiAux fuel cs
    else c :: stripAnsiAux fuel cs

/-- Delete all ANSI SGR escape sequences from a string. -/
def stripAnsi (s : String) : String := ⟨stripAnsiAux s.data.length s.data⟩

/-! ## Decoded record values

Model of the dynamically-typed `interface{}` values flowing through the
formatter: JSON decodes to `nil`, `bool`, `float64`, `string`,
`[]interface{}` and `map[string]interface{}` (plus `json.Number` under the
earlier `UseNumber` decoder, and `time.Duration` / `int` / `int64` values
originating from templates and callers).  `vint` models Go `int`/`int64`;
`vfloat` carries the exact rational value the `float64` denotes;
`vdur` is a `time.Duration` in nanoseconds.  A Go map is carried as its
entry list in range-iteration order — Go randomises map iteration, so one
Go map corresponds to every permutation of the entry list. -/

mutual

inductive GoVal where
  | vnull
  | vbool (b : Bool)
  | vint (n : Int)
  | vfloat (q : Rat)
  | vjsonnum (s : String)
  | vstr (s : String)
  | vdur (ns : Int)
  | varr (xs : GoList)
  | vmap (m : GoEntries)

inductive GoList where
  | nil
  | cons (v : GoVal) (t : GoList)

inductive GoEntries where
  | nil
  | cons (k : String) (v : GoVal) (t : GoEntries)

end

mutual

/-- Nesting depth of a value (used as structural recursion fuel for the
printers: every recursive call descends into a value of smaller depth). -/
def depthV : GoVal → Nat
  | .varr xs => depthL xs + 1
  | .vmap m => depthE m + 1
  | _ => 1

/-- Maximal depth of a list's elements. -/
def depthL : GoList → Nat
  | .nil => 0
  | .cons v t => max (depthV v) (depthL t)

/-- Maximal depth of a map's values. -/
def depthE : GoEntries → Nat
  | .nil => 0
  | .cons _ v t => max (depthV v) (depthE t)

end

/-- Convert the Go-slice model to a Lean list. -/
def GoList.toList : GoList → List GoVal
  | .nil => []
  | .cons v t => v :: t.toList

/-- Convert the Go-map model (in iteration order) to a Lean list. -/
def GoEntries.toList : GoEntries → List (String × GoVal)
  | .nil => []
  | .cons k v t => (k, v) :: t.toList

/-- Keys of a map in iteration order. -/
def entriesKeys : GoEntries → List String
  | .nil => []
  | .cons k _ t => k :: entriesKeys t

/-- `m[key]` lookup (map keys are unique, first hit wins). -/
def entriesLookup : GoEntries → String → Option GoVal
  | .nil, _ => none
  | .cons k v t, key => if k = key then some v else entriesLookup t key

/-- Go's byte-wise string comparison `a <= b` (ASCII byte order coincides
with `Char` code order). -/
def strLeB : List Char → List Char → Bool
  | [], _ => true
  | _ :: _, [] => false
  | x :: xs, y :: ys =>
    if x.toNat < y.toNat then true
    else if y.toNat < x.toNat then false
    else strLeB xs ys

/-- Insertion step of `sort.Strings` (byte-lexicographic order; keys are
unique so stability is irrelevant). -/
def insertStr (x : String) : List String → List String
  | [] => [x]
  | y :: ys => if strLeB x.data y.data then x :: y :: ys else y :: insertStr x ys

/-- `sort.Strings`. -/
def sortStrings (l : List String) : List String := l.foldr insertStr []

/-- Insertion step for sorting map entries by key (used by `fmt`'s map
printing, which emits keys in sorted order). -/
def insertEntry (x : String × GoVal) :
    List (String × GoVal) → List (String × GoVal)
  | [] => [x]
  | y :: ys =>
    if strLeB x.1.data y.1.data then x :: y :: ys else y :: insertEntry x ys

/-- Sort map entries by key. -/
def sortEntries (l : List (String × GoVal)) : List (String × GoVal) :=
  l.foldr insertEntry []

/-- Truncation of a rational toward zero — the semantics of Go's
`int64(f)` / `int(f)` / `time.Duration(f)` conversions. -/
def ratTrunc (q : Rat) : Int := if 0 ≤ q then q.floor else -((-q).floor)

/-- `n` printed in decimal, left-padded with zeros to `k` digits. -/
def padZeros (k : Nat) (n : Nat) : String :=
  ⟨List.replicate (k - (toString n).length) '0'⟩ ++ toString n

/-- `fmt`'s `%v` rendering of a `float64` carried as an exact rational.
Simplified model: a float's denominator is a power of two, so its decimal
expansion terminates and is printed in full (sign, integer part, point,
fraction).  Go prints the shortest round-tripping decimal and switches to
scientific notation for very large/small magnitudes; no theorem below
evaluates this branch, and for integer-valued floats of moderate size the
two renderings agree. -/
def goFloatRepr (q : Rat) : String :=
  if q.den = 1 then toString q.num
  else
    let k := bitLen q.den - 1
    if q.den = 2 ^ k then
      let m := q.num * (5 ^ k : Int)
      let a := m.natAbs
      (if q.num < 0 then "-" else "") ++
        toString (a / 10 ^ k) ++ "." ++ padZeros k (a % 10 ^ k)
    else toString q.num ++ "/" ++ toString q.den

/-- Join rendered strings with a separator. -/
def joinSep (sep : String) : List String → String
  | [] => ""
  | [x] => x
  | x :: xs => x ++ sep ++ joinSep sep xs

/-- Map a rendering function over the Go-slice model. -/
def goListMap (g : GoVal → String) : GoList → List String
  | .nil => []
  | .cons v t => g v :: goListMap g t

/-- Drop trailing `'0'` characters (used by `time.Duration.String`'s
fractional-second printing). -/
def trimZeros (s : String) : String :=
  ⟨(s.data.reverse.dropWhile (· == '0')).reverse⟩

/-- Model of `time.Duration.String` for the second-or-larger range (the
only range `formatDuration` ever forwards to it): optional sign, hours and
minutes when nonzero, seconds with the fractional part's trailing zeros
trimmed.  Go renders sub-second durations with ns/µs/ms units instead;
that range never reaches this function in the embedded code. -/
def goDurationString (d : Int) : String :=
  let a := d.natAbs
  let secs := a / 1000000000
  let frac := a % 1000000000
  let fracStr := if frac = 0 then "" else "." ++ trimZeros (padZeros 9 frac)
  let s := secs % 60
  let m := secs / 60 % 60
  let h := secs / 3600
  (if d < 0 then "-" else "") ++
    (if h ≠ 0 then toString h ++ "h" else "") ++
    (if h ≠ 0 ∨ m ≠ 0 then toString m ++ "m" else "") ++
    toString s ++ fracStr ++ "s"

/-- Round a rational to the nearest integer, ties to even (the rounding of
Go's fixed-precision float formatting). -/
def roundHalfEven (q : Rat) : Int :=
  let f := q.floor
  let r := q - f
  if r < 1 / 2 then f
  else if 1 / 2 < r then f + 1
  else if f % 2 = 0 then f else f + 1

/-- `fmt.Sprintf("%.2f", ·)` on the exact rational value (the Go code
formats a `float64`; the binary value's deviation from the exact rational
is below the rounding granularity in all evaluated cases). -/
def format2f (q : Rat) : String :=
  let n := roundHalfEven (q * 100)
  let a := n.natAbs
  (if n < 0 then "-" else "") ++ toString (a / 100) ++ "." ++ padZeros 2 (a % 100)

/-- `formatDuration` (`formatter.go`): unit selected by magnitude —
nanoseconds below 1µs, microseconds (2 decimals) below 1ms, milliseconds
below 1s, seconds (2 decimals) below 10s, else `time.Duration.String`. -/
def formatDuration (d : Int) : String :=
  if d < 1000 then toString d ++ "ns"
  else if d < 1000000 then format2f ((d : Rat) / 1000) ++ "µs"
  else if d < 1000000000 then format2f ((d : Rat) / 1000000) ++ "ms"
  else if d < 10000000000 then format2f ((d : Rat) / 1000000000) ++ "s"
  else goDurationString d

/-- `fmt.Sprintf("%v", ·)` over decoded values, with recursion fuel
(`depthV` of the argument always suffices).  Maps print as
`map[k1:v1 k2:v2]` with keys in sorted order (as `fmt` does); slices print
as `[v1 v2]`. -/
def goSprintfVAux : Nat → GoVal → String
  | 0, _ => ""
  | fuel + 1, v =>
    match v with
    | .vnull => "<nil>"
    | .vbool b => if b then "true" else "false"
    | .vint n => toString n
    | .vfloat q => goFloatRepr q
    | .vjsonnum s => s
    | .vstr s => s
    | .vdur d => goDurationString d
    | .varr xs => "[" ++ joinSep " " (goListMap (goSprintfVAux fuel) xs) ++ "]"
    | .vmap m =>
      "map[" ++
        joinSep " "
          ((sortEntries m.toList).map fun kv =>
            kv.1 ++ ":" ++ goSprintfVAux fuel kv.2) ++ "]"

/-- `fmt.Sprintf("%v", ·)`. -/
def goSprintfV (v : GoVal) : String := goSprintfVAux (depthV v) v

/-! ## The template formatter and its function library (`formatter.go`) -/

/-- `noValueStr`. -/
def noValueStr : String := "<no value>"

/-- `nanStr`. -/
def nanStr : String := "NaN"

/-- The configuration a `TemplateFormatter` carries into its function
library: the preferred date output layout and the no-colors flag. -/
structure TemplateFormatter where
  preferredDateFmt : String
  noColors : Bool

/-- Abstract model of the Go standard-library leaves the function library
calls into.  `parseTime layout s` models `time.Parse` (`none` = parse
error); `formatTime t layout` models `Time.Format` on the instant `t`
(nanoseconds since the Unix epoch); `parseDur` models
`time.ParseDuration` (result in nanoseconds); `parseFloat` models
`strconv.ParseFloat(·, 64)` with the accepted value as an exact rational.
The theorems below depend only on the success/failure structure of these
leaves, never on their internals. -/
structure StdlibModel where
  parseTime : String → String → Option Int
  formatTime : Int → String → String
  parseDur : String → Option Int
  parseFloat : String → Option Rat

/-- `strconv.Atoi` = `strconv.ParseInt(s, 10, 64)` on a 64-bit platform:
optional sign, nonempty run of decimal digits, `int64` range (range
overflow is an error, and the callers treat any error as failure). -/
def parseDigits : List Char → Option Nat
  | [] => none
  | ds =>
    if ds.all Char.isDigit then
      some (ds.foldl (fun acc c => acc * 10 + (c.toNat - 48)) 0)
    else none

/-- `strconv.Atoi`. -/
def goAtoi (s : String) : Option Int :=
  match s.data with
  | '+' :: ds => (parseDigits ds).bind fun n =>
      if n ≤ 2 ^ 63 - 1 then some (n : Int) else none
  | '-' :: ds => (parseDigits ds).bind fun n =>
      if n ≤ 2 ^ 63 then some (-(n : Int)) else none
  | ds => (parseDigits ds).bind fun n =>
      if n ≤ 2 ^ 63 - 1 then some (n : Int) else none

/-- Go byte length of a string (ASCII: one byte per char). -/
def goStrLen (s : String) : Nat := s.data.length

/-- Go byte slicing `s[:n]`. -/
def goTake (s : String) (n : Nat) : String := ⟨s.data.take n⟩

/-- `padFunc`: nil renders as bare padding; otherwise the `%v` form of the
value, right-padded with spaces to `length` (strings at or over the length
are untouched).  Go's `strings.Repeat` panics on negative counts; `Int.toNat`
clamps instead, and no modelled path passes a negative length. -/
def padFunc (length : Int) (value : GoVal) : String :=
  match value with
  | .vnull => spaces length.toNat
  | v =>
    let str := goSprintfV v
    if length ≤ (goStrLen str : Int) then str
    else str ++ spaces (length - goStrLen str).toNat

/-- Separator between array items in `prettyArray` (dimmed when colors are
enabled). -/
def prettySep (f : TemplateFormatter) : String :=
  if f.noColors then ", " else "\x1b[2m, \x1b[0m"

/-- `key=` part of a `prettyMap` entry (dimmed when colors are enabled). -/
def prettyKeyPart (f : TemplateFormatter) (k : String) : String :=
  if f.noColors then k ++ "=" else "\x1b[2m" ++ k ++ "=\x1b[0m"

/-- `prettyArray`: `[]` when empty, else the pretty-printed items joined
with the (possibly dimmed) `, ` separator inside brackets. -/
def prettyArrayF (f : TemplateFormatter) (items : List String) : String :=
  match items with
  | [] => "[]"
  | _ => "[" ++ joinSep (prettySep f) items ++ "]"

/-- `prettyMap`: `{}` when empty, else `{k1=v1, k2=v2}` in iteration order
with dimmed keys and separators. -/
def prettyMapF (f : TemplateFormatter) (items : List (String × String)) :
    String :=
  match items with
  | [] => "{}"
  | _ =>
    "\x7b" ++
      joinSep (prettySep f) (items.map fun kv => prettyKeyPart f kv.1 ++ kv.2)
      ++ "\x7d"

/-- Map a rendering function over a Go-map model's entries in iteration
order. -/
def goEntriesMapVals (g : GoVal → String) : GoEntries → List (String × String)
  | .nil => []
  | .cons k v t => (k, g v) :: goEntriesMapVals g t

/-- `prettyFunc` with recursion fuel (`depthV` of the argument always
suffices): nil → `<nil>`, empty string → `<empty>`, booleans via `%t`,
`json.Number` via its exact text, durations via `formatDuration`, numbers
via `%v`, slices via `prettyArray`, maps via `prettyMap` in iteration
order.  The reflective fallback branches of the Go function re-enter
`prettyArray`/`prettyMap` for slice-like and map-like values, which the
value model already covers. -/
def prettyAux (f : TemplateFormatter) : Nat → GoVal → String
  | 0, _ => ""
  | fuel + 1, v =>
    match v with
    | .vnull => "<nil>"
    | .vstr s => if s = "" then "<empty>" else s
    | .vbool b => if b then "true" else "false"
    | .vjsonnum s => s
    | .vdur d => formatDuration d
    | .vint n => toString n
    | .vfloat q => goFloatRepr q
    | .varr xs => prettyArrayF f (goListMap (prettyAux f fuel) xs)
    | .vmap m => prettyMapF f (goEntriesMapVals (prettyAux f fuel) m)

/-- `prettyFunc`. -/
def prettyFunc (f : TemplateFormatter) (v : GoVal) : String :=
  prettyAux f (depthV v) v

/-- Last element of the Go-slice model (the `table` wrapper's
backward-compatibility branch). -/
def goListLast : GoVal → GoList → GoVal
  | d, .nil => d
  | _, .cons v t => goListLast v t

/-- The key-padding parameter parsing of `tableFunc`: default 19 when nil
or unrecognised; `int` values are taken as-is, strings via `Atoi` (only
when positive), `float64` via `int(p)` truncation. -/
def tableKeyPadding (padding : GoVal) : Int :=
  match padding with
  | .vnull => 19
  | .vint p => p
  | .vstr s =>
    match goAtoi s with
    | some val => if 0 < val then val else 19
    | none => 19
  | .vfloat q => ratTrunc q
  | _ => 19

/-- The row loop of `tableFunc` over the sorted keys paired with their
index `i`: entries whose value is nil or the empty string are skipped, and
a `"\n"` separator is written whenever `i > 0` — the index of the sorted
position, not of the emitted row.  Each row is two spaces, the key padded
to the key padding (dimmed when colors are on) and the `pretty` form of
the value. -/
def tableLoop (f : TemplateFormatter) (pad : Int) (m : GoEntries) :
    List (Nat × String) → String
  | [] => ""
  | (i, key) :: rest =>
    match entriesLookup m key with
    | none => tableLoop f pad m rest
    | some val =>
      let isEmpty :=
        match val with
        | .vnull => true
        | .vstr s => s = ""
        | _ => false
      if isEmpty then tableLoop f pad m rest
      else
        (if 0 < i then "\n" else "") ++
          (if f.noColors then "  " ++ padFunc pad (.vstr key)
           else "  \x1b[2m" ++ padFunc pad (.vstr key) ++ "\x1b[0m") ++
          prettyFunc f val ++ tableLoop f pad m rest

/-- `tableFunc(padding, value)`: nil renders as `""`; a nonempty slice
argument falls back to its last element (backward compatibility); a map
renders one row per non-empty entry over its sorted keys via `tableLoop`;
any other value falls through to `pretty`; an empty map renders as `""`. -/
def tableFunc (f : TemplateFormatter) (padding value : GoVal) : String :=
  match value with
  | .vnull => ""
  | _ =>
    let keyPadding := tableKeyPadding padding
    let actualValue :=
      match value with
      | .varr (.cons v t) => goListLast v t
      | _ => value
    match actualValue with
    | .vmap m =>
      match m with
      | .nil => ""
      | _ =>
        tableLoop f keyPadding m (sortStrings (entriesKeys m)).enum
    | other => prettyFunc f other

/-- The `maxLen` parsing inside `truncFunc`: `nil` is skipped (`none`, so
the default 20 applies), `int` values are taken directly, anything else
goes through `Atoi` of its `%v` form.  (`vint` models both Go `int` —
taken by the type switch — and `int64` — recovered via `Atoi` of its
decimal `%v` form; the two paths agree.) -/
def truncMaxLenParsed (maxLen : GoVal) : Option Int :=
  match maxLen with
  | .vnull => none
  | .vint l => some l
  | other => goAtoi (goSprintfV other)

/-- The effective maximum length `truncFunc` works with: the parsed
`maxLen` when available, with the default 20 applied both for missing or
unparseable values and for non-positive parses. -/
def truncMaxLength (maxLen : GoVal) : Int :=
  let parsed := (truncMaxLenParsed maxLen).getD 20
  if parsed ≤ 0 then 20 else parsed

/-- `truncFunc(maxLen, value)`: nil → `<no value>`; empty text → `""`;
`maxLen` parsed per `truncMaxLenParsed` with default 20, and non-positive
values fall back to 20; text at or under the limit is unchanged; limits
under 4 hard-truncate; otherwise truncate to `maxLen - 3` and append
`...`. -/
def truncFunc (maxLen value : GoVal) : String :=
  match value with
  | .vnull => noValueStr
  | v =>
    let text := goSprintfV v
    if text = "" then ""
    else
      let maxLength := truncMaxLength maxLen
      if (goStrLen text : Int) ≤ maxLength then text
      else if maxLength < 4 then goTake text maxLength.toNat
      else goTake text (maxLength.toNat - 3) ++ "..."

/-- The operand coercion inside `multFunc`: `int`/`int64`/`float64` taken
directly, `json.Number` via `Float64()`, anything else via
`strconv.ParseFloat` of its `%v` form. -/
def multCoerce (M : StdlibModel) : GoVal → Option Rat
  | .vint n => some (n : Rat)
  | .vfloat q => some q
  | .vjsonnum s => M.parseFloat s
  | v => M.parseFloat (goSprintfV v)

/-- Is the value the `nil` interface. -/
def isNullV : GoVal → Bool
  | .vnull => true
  | _ => false

/-- Result formatting of `multFunc`: integral products print via `%d`,
others via `%.2f`. -/
def formatMultResult (r : Rat) : String :=
  if r = ((ratTrunc r : Int) : Rat) then toString (ratTrunc r)
  else format2f r

/-- `multFunc(arg, value)`: `NaN` when either operand is nil or fails
numeric coercion, otherwise the formatted product. -/
def multFunc (M : StdlibModel) (arg value : GoVal) : String :=
  if isNullV arg || isNullV value then nanStr
  else
    match multCoerce M arg, multCoerce M value with
    | some a, some b => formatMultResult (a * b)
    | _, _ => nanStr

/-- `parseDuration`: `time.Duration` values pass through; strings via
`time.ParseDuration`; `json.Number` via `Float64()` as milliseconds;
`int`/`int64` as milliseconds; `float64` as (fractional) milliseconds;
nil and every other type are errors (`none`). -/
def parseDurationM (M : StdlibModel) : GoVal → Option Int
  | .vnull => none
  | .vdur d => some d
  | .vstr s => M.parseDur s
  | .vjsonnum s =>
    match M.parseFloat s with
    | some q => some (ratTrunc (q * 1000000))
    | none => none
  | .vint n => some (n * 1000000)
  | .vfloat q => some (ratTrunc (q * 1000000))
  | _ => none

/-- `durationFunc`: parse failures fall back to `pretty`. -/
def durationFunc (M : StdlibModel) (f : TemplateFormatter) (v : GoVal) :
    String :=
  match parseDurationM M v with
  | none => prettyFunc f v
  | some d => formatDuration d

/-- The fixed list of date layouts `dateFunc` tries, in priority order. -/
def goDateLayouts : List String :=
  ["2006-01-02T15:04:05Z07:00",
   "2006-01-02T15:04:05.999999999Z07:00",
   "2006-01-02T15:04:05.999999999",
   "2006-01-02T15:04:05",
   "2006-01-02 15:04:05",
   "2006-01-02",
   "Mon Jan 2 15:04:05 2006",
   "Mon Jan 2 15:04:05 MST 2006",
   "Jan 2 15:04:05",
   "Jan 2 15:04:05 2006",
   "02/Jan/2006:15:04:05 -0700"]

/-- The parse loop of `dateFunc`'s string case: the first layout that
parses wins. -/
def dateTryLayouts (M : StdlibModel) (s : String) : List String → Option Int
  | [] => none
  | layout :: rest =>
    match M.parseTime layout s with
    | some t => some t
    | none => dateTryLayouts M s rest

/-- `time.Unix(sec, nsec)` as nanoseconds since the epoch. -/
def unixNs (sec nsec : Int) : Int := sec * 1000000000 + nsec

/-- `dateFunc`: nil → `""`; strings try the layout list and fall back to
the unchanged input; `json.Number` tries `Int64()` then `Float64()` as Unix
seconds and falls back to its text; `int64`/`float64` are Unix seconds
(with truncated fractional nanoseconds); anything else renders via `%v`. -/
def dateFunc (M : StdlibModel) (f : TemplateFormatter) (value : GoVal) :
    String :=
  match value with
  | .vnull => ""
  | .vstr s =>
    match dateTryLayouts M s goDateLayouts with
    | some t => M.formatTime t f.preferredDateFmt
    | none => s
  | .vjsonnum s =>
    match goAtoi s with
    | some i => M.formatTime (unixNs i 0) f.preferredDateFmt
    | none =>
      match M.parseFloat s with
      | some q =>
        let sec := ratTrunc q
        let nsec := ratTrunc ((q - (sec : Rat)) * 1000000000)
        M.formatTime (unixNs sec nsec) f.preferredDateFmt
      | none => s
  | .vint n => M.formatTime (unixNs n 0) f.preferredDateFmt
  | .vfloat q =>
    let sec := ratTrunc q
    let nsec := ratTrunc ((q - (sec : Rat)) * 1000000000)
    M.formatTime (unixNs sec nsec) f.preferredDateFmt
  | v => goSprintfV v

/-! ## Stream pipeline (`ProcessStream`, `shouldSkip`)

`ProcessStream` scans the input line by line (`bufio.Scanner` yields lines
without their newline; the model takes the line list directly), decodes
each non-empty line as a JSON object, and tracks a single piece of state:
whether it is inside a non-JSON block.  JSON decoding is `json.Unmarshal`
into `map[string]interface{}`; the model abstracts it as a
`decode : String → Option Rec` parameter (the claims below depend only on
whether a line decodes, not on the parser's internals), and the
`formatter Formatter` interface argument as `fmtF : Rec → Except String
String` (rendering a record may fail, which aborts the stream). -/

/-- A decoded record: field name → value, in iteration order. -/
def Rec := List (String × GoVal)

/-- Record field lookup `data[field]`. -/
def recLookup : Rec → String → Option GoVal
  | [], _ => none
  | (k, v) :: t, field => if k = field then some v else recLookup t field

/-- `SkipPattern`: a field name and a value substring. -/
structure SkipPattern where
  field : String
  value : String

/-- `shouldSkip`: with no patterns nothing is skipped; otherwise a record
is skipped as soon as some pattern's field exists and the field value's
`%v` form equals the pattern value or contains it as a substring. -/
def shouldSkip (data : Rec) (skipPatterns : List SkipPattern) : Bool :=
  match skipPatterns with
  | [] => false
  | _ =>
    skipPatterns.any fun pattern =>
      match recLookup data pattern.field with
      | none => false
      | some actualValue =>
        let actualValueStr := goSprintfV actualValue
        actualValueStr = pattern.value ||
          goContains actualValueStr pattern.value

/-- The loop body of `ProcessStream` for one scanned line: returns the
bytes written for this line and the updated non-JSON-block flag, or the
error that aborts the stream.  Empty lines are skipped outright.  A line
that fails to decode is an error unless `handleNonJSON` is set, in which
case it is echoed with the `>>> ` marker (colored unless `noColors`),
preceded by a blank line when a non-JSON block starts here.  A line that
decodes is first checked against the skip patterns (a match discards it
with no output and no state change); only then is a pending non-JSON block
finalised with a blank line, and the rendered record written with a
trailing newline. -/
def processLine (decode : String → Option Rec)
    (fmtF : Rec → Except String String) (skipPatterns : List SkipPattern)
    (handleNonJSON noColors : Bool) (inNonJSON : Bool) (line : String) :
    Except String (String × Bool) :=
  if line = "" then .ok ("", inNonJSON)
  else
    match decode line with
    | none =>
      if handleNonJSON then
        let pre := if noColors then ">>> " else "\x1b[31m>>>\x1b[0m "
        let formatted := pre ++ line
        let blank := if !inNonJSON then "\n" else ""
        .ok (blank ++ formatted ++ "\n", true)
      else .error ("invalid JSON: " ++ line)
    | some data =>
      if shouldSkip data skipPatterns then .ok ("", inNonJSON)
      else
        let blank := if inNonJSON then "\n" else ""
        match fmtF data with
        | .error e => .error e
        | .ok formatted => .ok (blank ++ formatted ++ "\n", false)

/-- `ProcessStream` over a list of scanned lines: thread the
non-JSON-block flag through `processLine`, concatenating the output, and
stop at the first error. -/
def processStream (decode : String → Option Rec)
    (fmtF : Rec → Except String String) (skipPatterns : List SkipPattern)
    (handleNonJSON noColors : Bool) :
    Bool → List String → Except String String
  | _, [] => .ok ""
  | inNonJSON, line :: rest =>
    match processLine decode fmtF skipPatterns handleNonJSON noColors
        inNonJSON line with
    | .error e => .error e
    | .ok (out, st) =>
      match processStream decode fmtF skipPatterns handleNonJSON noColors
          st rest with
      | .error e => .error e
      | .ok outRest => .ok (out ++ outRest)

/-! ## Claim C1 -/

/-- C1: the spec requires numeric fields to keep exact textual precision
("arbitrary-precision number representation, not lossy floats"), and the
stream pipeline's own earlier revision decoded with `decoder.UseNumber()`
"to preserve precision" — but the current `ProcessStream` decodes each line
with plain `json.Unmarshal`, which represents every number as `float64`.
The two distinct integer numerals `9007199254740993` and `9007199254740992`
decode to the same `float64` value, so no rendering of the decoded record
can reproduce both input numerals' text exactly: textual fidelity of large
integer IDs is lost.  (Code bug: `dateFunc`, `prettyFunc`, `multFunc` and
`toFloat64` all still carry `json.Number` branches that the current decode
path can never feed.) -/
theorem c1_unmarshal_collapses_large_ints :
    float64OfNat 9007199254740993 = float64OfNat 9007199254740992 ∧
    float64OfNat 9007199254740993 = 9007199254740992 ∧
    (9007199254740993 : Nat) ≠ 9007199254740992 := by
  refine ⟨by decide, by decide, by decide⟩

/-! ## Claim C5 -/

/-- C5: the template preprocessor is idempotent on native-syntax input: for
every template that is valid native double-brace syntax (contains `{{` and,
after removing all `{{`, no standalone `{` — the code's own check), and for
every option set, `PreProcessTemplate` returns the template unmodified, and
hence applying it twice equals applying it once. -/
theorem c5_preprocess_idempotent_on_native
    (opts : PreProcessTemplateOptions) (t : String)
    (h : (goContains t "\x7b\x7b" &&
          !(goContains (goReplaceAll t "\x7b\x7b" "") "\x7b")) = true) :
    PreProcessTemplate t opts = t ∧
    PreProcessTemplate (PreProcessTemplate t opts) opts =
      PreProcessTemplate t opts := by
  have ht : t ≠ "" := by
    intro he
    subst he
    simp [goContains, containsL, hasPrefixL] at h
  have h1 : PreProcessTemplate t opts = t := by
    unfold PreProcessTemplate transformSimple
    rw [if_neg ht]
    rcases hE : opts.enableSimple with _ | _
    · simp [hE]
    · simp [hE, h]
  exact ⟨h1, by rw [h1]; exact h1⟩

/-- Witness for C5 at the native-syntax template "{{.level}} {{.message}}"
with the default options. -/
theorem c5_preprocess_idempotent_on_native_witness :
    PreProcessTemplate "{{.level}} {{.message}}"
        defaultPreProcessTemplateOptions = "{{.level}} {{.message}}" ∧
    PreProcessTemplate
        (PreProcessTemplate "{{.level}} {{.message}}"
          defaultPreProcessTemplateOptions)
        defaultPreProcessTemplateOptions =
      PreProcessTemplate "{{.level}} {{.message}}"
        defaultPreProcessTemplateOptions :=
  c5_preprocess_idempotent_on_native defaultPreProcessTemplateOptions
    "{{.level}} {{.message}}" (by decide)

/-! ## Claim C6 -/

/-- C6: the claim `stripTags(applyColors(s, false)) == stripTags(s)`
content-wise fails on the triply nested color tags
`<red><bold><dim>z</dim></bold></red>`.  `ApplyColors` resolves all three
tags (content `z`), but `stripColorTags`'s batch `ReplaceAllString` pass,
after stripping the innermost `<dim>z</dim>`, continues scanning behind it
and consumes the two adjacent closing tags `</bold></red>` as one bogus
tag match (name `/bold`, empty content), leaving the unremovable residue
`<red><bold>z`.  This contradicts the function's own documentation
("removes color tags", "strip tags, from innermost to outermost"), so the
code, not the claim, is at fault.  The second half of the claim,
`applyColors(s, true) == stripTags(s)`, holds at this input (and for every
input, by definition of `ApplyColors`). -/
theorem c6_strip_tags_leaves_residue_on_triple_nesting :
    stripAnsi (stripColorTags
        (ApplyColors "<red><bold><dim>z</dim></bold></red>" false)) = "z" ∧
    stripColorTags "<red><bold><dim>z</dim></bold></red>" = "<red><bold>z" ∧
    stripAnsi (stripColorTags
        (ApplyColors "<red><bold><dim>z</dim></bold></red>" false)) ≠
      stripAnsi (stripColorTags "<red><bold><dim>z</dim></bold></red>") ∧
    ApplyColors "<red><bold><dim>z</dim></bold></red>" true =
      stripColorTags "<red><bold><dim>z</dim></bold></red>" := by
  refine ⟨by decide, by decide, by decide, by decide⟩

/-! ## Claims C7 and C10 -/

/-- `truncFunc` only depends on `maxLen` through the effective maximum
length. -/
theorem truncFunc_congr (m1 m2 v : GoVal)
    (h : truncMaxLength m1 = truncMaxLength m2) :
    truncFunc m1 v = truncFunc m2 v := by
  cases v <;> simp [truncFunc, h]

/-- A nonempty string has positive byte length. -/
theorem goStrLen_pos_of_ne (s : String) (hs : s ≠ "") : 0 < goStrLen s := by
  rcases s with ⟨data⟩
  cases data with
  | nil => exact absurd rfl hs
  | cons c cs => simp [goStrLen]

/-- C7: behaviour of `trunc` — a string at or under the limit is returned
unchanged; a longer string with limit `n ≥ 4` truncates to exactly `n`
bytes ending in `...`; a longer string with a small positive limit
`n < 4` is hard-truncated to `n` bytes without ellipsis; nil renders as
the fixed `<no value>` marker (for every `maxLen`); the empty string
passes through (for every `maxLen`). -/
theorem c7_trunc_behaviour (n : Int) (s : String) :
    (((goStrLen s : Int) ≤ n → truncFunc (.vint n) (.vstr s) = s) ∧
     (n < (goStrLen s : Int) → 4 ≤ n →
        goStrLen (truncFunc (.vint n) (.vstr s)) = n.toNat ∧
        List.IsSuffix "...".data (truncFunc (.vint n) (.vstr s)).data) ∧
     (n < (goStrLen s : Int) → 0 < n → n < 4 →
        truncFunc (.vint n) (.vstr s) = goTake s n.toNat)) ∧
    (∀ m : GoVal, truncFunc m .vnull = noValueStr) ∧
    (∀ m : GoVal, truncFunc m (.vstr "") = "") := by
  have htext : goSprintfV (.vstr s) = s := rfl
  refine ⟨⟨?_, ?_, ?_⟩, fun m => rfl, fun m => by simp [truncFunc, goSprintfV, goSprintfVAux, depthV]⟩
  · intro h
    by_cases hs : s = ""
    · subst hs
      simp [truncFunc, goSprintfV, goSprintfVAux, depthV]
    · have hpos : 0 < goStrLen s := goStrLen_pos_of_ne s hs
      have hn : ¬ n ≤ 0 := by omega
      simp only [truncFunc, htext, truncMaxLength, truncMaxLenParsed,
        Option.getD_some]
      rw [if_neg hs, if_neg hn, if_pos h]
  · intro hlt hn4
    by_cases hs : s = ""
    · subst hs
      simp [goStrLen] at hlt
      omega
    · have hn : ¬ n ≤ 0 := by omega
      have hml : truncMaxLength (.vint n) = n := by
        simp [truncMaxLength, truncMaxLenParsed, hn]
      have hres : truncFunc (.vint n) (.vstr s) =
          goTake s (n.toNat - 3) ++ "..." := by
        simp only [truncFunc, htext, hml]
        rw [if_neg hs, if_neg (by omega : ¬ (goStrLen s : Int) ≤ n),
          if_neg (by omega : ¬ n < 4)]
      have hdata : (truncFunc (.vint n) (.vstr s)).data =
          s.data.take (n.toNat - 3) ++ "...".data := by
        rw [hres]
        simp [goTake, String.data_append]
      constructor
      · show (truncFunc (.vint n) (.vstr s)).data.length = n.toNat
        rw [hdata, List.length_append, List.length_take]
        have h3 : "...".data.length = 3 := rfl
        have hlt2 : n < (s.data.length : Int) := hlt
        rw [h3]
        omega
      · rw [hdata]
        exact List.suffix_append _ _
  · intro hlt h0 h4
    by_cases hs : s = ""
    · subst hs
      simp [goStrLen] at hlt
      omega
    · have hn : ¬ n ≤ 0 := by omega
      have hml : truncMaxLength (.vint n) = n := by
        simp [truncMaxLength, truncMaxLenParsed, hn]
      simp only [truncFunc, htext, hml]
      rw [if_neg hs, if_neg (by omega : ¬ (goStrLen s : Int) ≤ n), if_pos h4]

/-- Witness for C7 at `n = 5`, `s = "hello world"`. -/
theorem c7_trunc_behaviour_witness :
    truncFunc (.vint 20) (.vstr "hello") = "hello" ∧
    goStrLen (truncFunc (.vint 5) (.vstr "hello world")) = 5 ∧
    List.IsSuffix "...".data (truncFunc (.vint 5) (.vstr "hello world")).data ∧
    truncFunc (.vint 3) (.vstr "hello world") = goTake "hello world" 3 ∧
    truncFunc (.vint 7) .vnull = noValueStr ∧
    truncFunc (.vint 7) (.vstr "") = "" := by
  refine ⟨(c7_trunc_behaviour 20 "hello").1.1 (by decide),
    ((c7_trunc_behaviour 5 "hello world").1.2.1 (by decide) (by decide)).1,
    ((c7_trunc_behaviour 5 "hello world").1.2.1 (by decide) (by decide)).2,
    (c7_trunc_behaviour 3 "hello world").1.2.2 (by decide) (by decide) (by decide),
    (c7_trunc_behaviour 0 "x").2.1 (.vint 7),
    (c7_trunc_behaviour 0 "x").2.2 (.vint 7)⟩

/-- C10: whenever the `maxLen` argument is nil or unparseable (parsed
`none`) or parses to a non-positive integer, `trunc` behaves exactly as
with the default maximum length 20 (and no error is raised — the function
is total). -/
theorem c10_trunc_default_maxlen (m v : GoVal)
    (h : truncMaxLenParsed m = none ∨
      ∃ l, truncMaxLenParsed m = some l ∧ l ≤ 0) :
    truncFunc m v = truncFunc (.vint 20) v := by
  apply truncFunc_congr
  have h20 : truncMaxLength (.vint 20) = 20 := by decide
  rw [h20]
  rcases h with h | ⟨l, hl, hle⟩
  · simp [truncMaxLength, h]
  · simp [truncMaxLength, hl, hle]

/-- Witness for C10: `maxLen = "abc"` (unparseable) and `maxLen = -7`
(non-positive) both act like 20. -/
theorem c10_trunc_default_maxlen_witness :
    truncFunc (.vstr "abc") (.vstr "a long string that exceeds twenty") =
      truncFunc (.vint 20) (.vstr "a long string that exceeds twenty") ∧
    truncFunc (.vint (-7)) (.vstr "a long string that exceeds twenty") =
      truncFunc (.vint 20) (.vstr "a long string that exceeds twenty") := by
  constructor
  · exact c10_trunc_default_maxlen (.vstr "abc") _ (Or.inl (by decide))
  · exact c10_trunc_default_maxlen (.vint (-7)) _
      (Or.inr ⟨-7, by decide, by decide⟩)

/-! ## Claim C8 -/

/-- C8: the claim that omitted (nil/empty) entries contribute "no line or
separator" fails.  `tableFunc` writes its `"\n"` separator whenever the
sorted-key index is positive, counting omitted entries too: on
`{"a": "", "b": "x"}` the omitted first entry `a` makes the emitted row
for `b` carry a leading newline, so the output starts with a blank line —
contradicting the code's own "Add newline between fields" comment.
Dropping the empty entry from the input removes the leading newline,
pinning the separator on the omitted entry. -/
theorem c8_table_separator_counts_omitted_entries :
    tableFunc ⟨"2006-01-02 15:04:05", true⟩ .vnull
        (.vmap (.cons "a" (.vstr "") (.cons "b" (.vstr "x") .nil))) =
      "\n  b                  x" ∧
    (tableFunc ⟨"2006-01-02 15:04:05", true⟩ .vnull
        (.vmap (.cons "a" (.vstr "") (.cons "b" (.vstr "x") .nil)))).data.head? =
      some '\n' ∧
    tableFunc ⟨"2006-01-02 15:04:05", true⟩ .vnull
        (.vmap (.cons "b" (.vstr "x") .nil)) =
      "  b                  x" := by
  refine ⟨by decide, by decide, by decide⟩

/-! ## Claim C2 -/

/-- `GoEntries.toList` is injective (two entry models with the same entry
list are the same model). -/
theorem goEntriesToList_inj :
    ∀ e1 e2 : GoEntries, e1.toList = e2.toList → e1 = e2
  | .nil, .nil, _ => rfl
  | .nil, .cons _ _ _, h => by simp [GoEntries.toList] at h
  | .cons _ _ _, .nil, h => by simp [GoEntries.toList] at h
  | .cons k1 v1 t1, .cons k2 v2 t2, h => by
    simp only [GoEntries.toList, List.cons.injEq, Prod.mk.injEq] at h
    obtain ⟨⟨hk, hv⟩, ht⟩ := h
    rw [hk, hv, goEntriesToList_inj t1 t2 ht]

/-- C2 counterexample: `prettyMap` iterates the Go map in range order,
which Go randomises per iteration — the same two-entry map presented in
its two possible iteration orders renders to two different strings, so
`pretty` applied to a mapping value does not yield the same string on
every call, and `Format` of a template invoking `pretty` on such a map is
not deterministic per record. -/
theorem c2_pretty_map_order_counterexample :
    List.Perm
      (GoEntries.cons "a" (.vstr "1") (.cons "b" (.vstr "2") .nil)).toList
      (GoEntries.cons "b" (.vstr "2") (.cons "a" (.vstr "1") .nil)).toList ∧
    prettyFunc ⟨"2006-01-02 15:04:05", true⟩
        (.vmap (.cons "a" (.vstr "1") (.cons "b" (.vstr "2") .nil))) ≠
      prettyFunc ⟨"2006-01-02 15:04:05", true⟩
        (.vmap (.cons "b" (.vstr "2") (.cons "a" (.vstr "1") .nil))) := by
  constructor
  · exact List.Perm.swap _ _ _
  · decide

/-- C2 amended: rendering is a deterministic function of the Record
together with the map iteration orders Go happens to choose; `pretty` on a
mapping with at most one entry is independent of the iteration order (for
two or more entries it is not, see the counterexample — `table`, which
sorts its keys, stays order-independent). -/
theorem c2_pretty_deterministic_upto_order (f : TemplateFormatter)
    (e1 e2 : GoEntries) (hp : List.Perm e1.toList e2.toList)
    (hl : e1.toList.length ≤ 1) :
    prettyFunc f (.vmap e1) = prettyFunc f (.vmap e2) := by
  have hlist : e1.toList = e2.toList := by
    cases h1 : e1.toList with
    | nil =>
      rw [h1] at hp
      exact hp.nil_eq
    | cons x t =>
      cases t with
      | nil =>
        rw [h1] at hp
        exact (List.singleton_perm.mp hp)
      | cons y u =>
        rw [h1] at hl
        simp at hl
  rw [goEntriesToList_inj e1 e2 hlist]

/-- Witness for C2's amended statement at a singleton map. -/
theorem c2_pretty_deterministic_upto_order_witness :
    prettyFunc ⟨"2006-01-02 15:04:05", true⟩
        (.vmap (.cons "a" (.vstr "1") .nil)) =
      prettyFunc ⟨"2006-01-02 15:04:05", true⟩
        (.vmap (.cons "a" (.vstr "1") .nil)) :=
  c2_pretty_deterministic_upto_order ⟨"2006-01-02 15:04:05", true⟩
    (.cons "a" (.vstr "1") .nil) (.cons "a" (.vstr "1") .nil)
    (List.Perm.refl _) (by decide)

/-! ## Claim C4 (with helper lemmas on `shouldSkip`) -/

/-- `shouldSkip` fires when some pattern's field exists and the field
value's `%v` form equals or contains the pattern value. -/
theorem shouldSkip_true_of (data : Rec) (pats : List SkipPattern)
    (p : SkipPattern) (v : GoVal) (hp : p ∈ pats)
    (hv : recLookup data p.field = some v)
    (hm : goSprintfV v = p.value ∨ goContains (goSprintfV v) p.value = true) :
    shouldSkip data pats = true := by
  cases pats with
  | nil => cases hp
  | cons q qs =>
    simp only [shouldSkip, List.any_eq_true]
    refine ⟨p, hp, ?_⟩
    rw [hv]
    rcases hm with hm | hm <;> simp [hm]

/-- `shouldSkip` stays false when no pattern matches. -/
theorem shouldSkip_false_of (data : Rec) (pats : List SkipPattern)
    (h : ∀ p ∈ pats, ∀ v, recLookup data p.field = some v →
      goSprintfV v ≠ p.value ∧ goContains (goSprintfV v) p.value = false) :
    shouldSkip data pats = false := by
  cases pats with
  | nil => rfl
  | cons q qs =>
    simp only [shouldSkip, List.any_eq_false]
    intro p hp
    cases hlook : recLookup data p.field with
    | none => simp [hlook]
    | some v =>
      obtain ⟨hne, hnc⟩ := h p hp v hlook
      simp [hlook, hne, hnc]

/-- C4: for every record and configured skip-pattern list, if some
pattern's field exists in the record and the field value's string
representation equals or contains the pattern value, the pipeline writes
no output for that record (and leaves the non-JSON-block state untouched);
if no pattern matches, the record is rendered and written with a trailing
newline (after the blank line finalising a pending non-JSON block). -/
theorem c4_skip_patterns_suppress_output (decode : String → Option Rec)
    (fmtF : Rec → Except String String) (pats : List SkipPattern)
    (hnj nc inNJ : Bool) (line : String) (rec : Rec)
    (hne : line ≠ "") (hdec : decode line = some rec) :
    ((∃ p ∈ pats, ∃ v, recLookup rec p.field = some v ∧
        (goSprintfV v = p.value ∨
          goContains (goSprintfV v) p.value = true)) →
      processLine decode fmtF pats hnj nc inNJ line = .ok ("", inNJ)) ∧
    ((∀ p ∈ pats, ∀ v, recLookup rec p.field = some v →
        goSprintfV v ≠ p.value ∧
          goContains (goSprintfV v) p.value = false) →
      ∀ out, fmtF rec = .ok out →
        processLine decode fmtF pats hnj nc inNJ line =
          .ok ((if inNJ then "\n" else "") ++ out ++ "\n", false)) := by
  constructor
  · rintro ⟨p, hp, v, hv, hm⟩
    have hskip := shouldSkip_true_of rec pats p v hp hv hm
    unfold processLine
    rw [if_neg hne, hdec]
    simp [hskip]
  · intro h out hout
    have hskip := shouldSkip_false_of rec pats h
    unfold processLine
    rw [if_neg hne, hdec]
    simp [hskip, hout]

/-- Witness for C4: a record with `level = "debug"` is suppressed by the
pattern `level=debug`, and rendered when the pattern list targets a
different value. -/
theorem c4_skip_patterns_suppress_output_witness :
    processLine (fun _ => some [("level", .vstr "debug")])
        (fun _ => .ok "OUT") [⟨"level", "debug"⟩] true true false "ln" =
      .ok ("", false) ∧
    processLine (fun _ => some [("level", .vstr "debug")])
        (fun _ => .ok "OUT") [⟨"level", "warn"⟩] true true false "ln" =
      .ok ("OUT\n", false) := by
  constructor
  · exact (c4_skip_patterns_suppress_output _ _ _ true true false "ln"
      [("level", .vstr "debug")] (by decide) rfl).1
      ⟨⟨"level", "debug"⟩, List.Mem.head _, .vstr "debug", rfl,
        Or.inl (by decide)⟩
  · exact (c4_skip_patterns_suppress_output _ _ _ true true false "ln"
      [("level", .vstr "debug")] (by decide) rfl).2
      (by
        intro p hp v hv
        simp only [List.mem_singleton] at hp
        subst hp
        simp [recLookup] at hv
        subst hv
        constructor
        · decide
        · decide)
      "OUT" rfl

/-! ## Claim C3 -/

/-- C3 counterexample: the claim says a successfully decoding line arriving
in non-JSON-block mode first triggers the blank line and the mode exit, and
only then the skip check.  In the code the skip check comes first: a
skipped record produces no output at all and leaves the pipeline in
non-JSON-block mode.  Concretely, with skip pattern `level=debug`, the
line `"A"` decoding to `{level: debug}` while in non-JSON mode yields no
blank line and an unchanged state, and the two-line stream `X` (non-JSON),
`A` (skipped record) ends with no blank line after the non-JSON block. -/
theorem c3_skip_checked_before_block_exit_counterexample :
    processLine (fun l => if l = "A" then some [("level", .vstr "debug")] else none)
        (fun _ => .ok "OUT") [⟨"level", "debug"⟩] true true true "A" =
      .ok ("", true) ∧
    processStream (fun l => if l = "A" then some [("level", .vstr "debug")] else none)
        (fun _ => .ok "OUT") [⟨"level", "debug"⟩] true true false ["X", "A"] =
      .ok "\n>>> X\n" := by
  refine ⟨rfl, rfl⟩

/-- C3 amended: for every line that decodes successfully as a JSON object
while the pipeline is in non-JSON-block mode, the Skip Pattern check is
applied first — a matching record is discarded silently with no output and
the pipeline stays in non-JSON-block mode; only for a non-skipped record
does the pipeline emit the blank line, exit the mode, and write the
rendered record plus a newline. -/
theorem c3_skip_checked_before_block_exit (decode : String → Option Rec)
    (fmtF : Rec → Except String String) (pats : List SkipPattern)
    (hnj nc : Bool) (line : String) (rec : Rec)
    (hne : line ≠ "") (hdec : decode line = some rec) :
    (shouldSkip rec pats = true →
      processLine decode fmtF pats hnj nc true line = .ok ("", true)) ∧
    (shouldSkip rec pats = false → ∀ out, fmtF rec = .ok out →
      processLine decode fmtF pats hnj nc true line =
        .ok ("\n" ++ out ++ "\n", false)) := by
  constructor
  · intro hskip
    unfold processLine
    rw [if_neg hne, hdec]
    simp [hskip]
  · intro hskip out hout
    unfold processLine
    rw [if_neg hne, hdec]
    simp [hskip, hout]

/-- Witness for C3's amended statement. -/
theorem c3_skip_checked_before_block_exit_witness :
    processLine (fun _ => some [("level", .vstr "debug")])
        (fun _ => .ok "OUT") [⟨"level", "debug"⟩] true true true "A" =
      .ok ("", true) ∧
    processLine (fun _ => some [("level", .vstr "info")])
        (fun _ => .ok "OUT") [⟨"level", "debug"⟩] true true true "A" =
      .ok ("\nOUT\n", false) := by
  constructor
  · exact (c3_skip_checked_before_block_exit _ _ _ true true "A"
      [("level", .vstr "debug")] (by decide) rfl).1 (by decide)
  · exact (c3_skip_checked_before_block_exit _ _ _ true true "A"
      [("level", .vstr "info")] (by decide) rfl).2 (by decide) "OUT" rfl

/-! ## Claim C9 -/

/-- The layout loop of `dateFunc` returns `none` when every layout fails
to parse. -/
theorem dateTryLayouts_eq_none (M : StdlibModel) (s : String) :
    ∀ L : List String, (∀ l ∈ L, M.parseTime l s = none) →
      dateTryLayouts M s L = none
  | [], _ => rfl
  | l :: ls, h => by
    unfold dateTryLayouts
    rw [h l (List.Mem.head _)]
    exact dateTryLayouts_eq_none M s ls fun x hx => h x (List.Mem.tail _ hx)

/-- C9: value-coercion failures inside the formatting functions are never
fatal — the functions are total (they return a `String`, there is no error
channel): a string none of the date layouts can parse is returned
unchanged by `date`; a value `parseDuration` rejects makes `duration` fall
back to `pretty`; and `mult` returns the literal `"NaN"` whenever either
operand is nil or fails numeric coercion. -/
theorem c9_coercion_failures_degrade (M : StdlibModel)
    (f : TemplateFormatter) (s : String) (v a b : GoVal) :
    ((∀ layout ∈ goDateLayouts, M.parseTime layout s = none) →
      dateFunc M f (.vstr s) = s) ∧
    (parseDurationM M v = none → durationFunc M f v = prettyFunc f v) ∧
    ((isNullV a = true ∨ isNullV b = true ∨ multCoerce M a = none ∨
        multCoerce M b = none) → multFunc M a b = nanStr) := by
  refine ⟨?_, ?_, ?_⟩
  · intro h
    simp only [dateFunc]
    rw [dateTryLayouts_eq_none M s goDateLayouts h]
  · intro h
    simp only [durationFunc]
    rw [h]
  · intro h
    unfold multFunc
    by_cases hn : (isNullV a || isNullV b) = true
    · rw [if_pos hn]
    · rw [if_neg hn]
      simp only [Bool.or_eq_true, not_or, Bool.not_eq_true] at hn
      rcases h with h | h | h | h
      · rw [hn.1] at h
        cases h
      · rw [hn.2] at h
        cases h
      · rw [h]
      · rw [h]
        cases multCoerce M a <;> rfl

/-- Witness for C9 with the all-failing stdlib model: `date` passes the
unparseable string through, `duration` of a boolean falls back to
`pretty`, and `mult` with a non-numeric string operand yields `"NaN"`. -/
theorem c9_coercion_failures_degrade_witness :
    dateFunc ⟨fun _ _ => none, fun _ _ => "", fun _ => none, fun _ => none⟩
        ⟨"2006-01-02 15:04:05", true⟩ (.vstr "not a date") = "not a date" ∧
    durationFunc ⟨fun _ _ => none, fun _ _ => "", fun _ => none, fun _ => none⟩
        ⟨"2006-01-02 15:04:05", true⟩ (.vbool true) =
      prettyFunc ⟨"2006-01-02 15:04:05", true⟩ (.vbool true) ∧
    multFunc ⟨fun _ _ => none, fun _ _ => "", fun _ => none, fun _ => none⟩
        (.vstr "abc") (.vint 10) = nanStr := by
  refine ⟨(c9_coercion_failures_degrade
      ⟨fun _ _ => none, fun _ _ => "", fun _ => none, fun _ => none⟩
      ⟨"2006-01-02 15:04:05", true⟩ "not a date" .vnull .vnull .vnull).1
      (fun _ _ => rfl),
    (c9_coercion_failures_degrade
      ⟨fun _ _ => none, fun _ _ => "", fun _ => none, fun _ => none⟩
      ⟨"2006-01-02 15:04:05", true⟩ "" (.vbool true) .vnull .vnull).2.1 rfl,
    (c9_coercion_failures_degrade
      ⟨fun _ _ => none, fun _ _ => "", fun _ => none, fun _ => none⟩
      ⟨"2006-01-02 15:04:05", true⟩ "" .vnull (.vstr "abc") (.vint 10)).2.2
      (Or.inr (Or.inr (Or.inl rfl)))⟩

end Logista







